import Mathlib

/-!
Verification of the streaming multipart upload pipeline of the Wasabi bot
(`src/bot.py`).  The pipeline is shallowly embedded: file bytes are lists of
naturals, the remote S3 store is an oracle (`S3Env`) giving the outcome of
every remote call, and the handler `instant_upload_handler` (bot.py lines
309-384) is translated into a pure function that returns, besides its outcome,
the trace of remote calls it made, the progress events it emitted, and the
payloads the remote store received.
-/

namespace Wasabi

/-- A recorded part, as built by `InstantUploadS3Client.upload_part`
(bot.py line 79): the dict holding the ETag returned by the store and the
part number that was sent. -/
structure Part where
  eTag : String
  partNumber : Nat
deriving Repr, DecidableEq

/-- The remote calls (and the one local milestone, `downloadComplete`) that
the handler can perform, recorded as a trace.  `abort` is the
`abort_multipart_upload` remote operation; the constructor exists so that
statements about how often it is invoked can be made. -/
inductive S3Call where
  | start
  | downloadComplete
  | uploadPart (chunkIdx : Nat) (partNumber : Nat)
  | complete (parts : List Part)
  | abort
  | presign
deriving Repr, DecidableEq

/-- Oracle for the remote store: the outcome of each remote call the handler
may issue.  `start_multipart_upload` catches exceptions and returns `None`
(bot.py lines 55-65), modelled by `startResult`; `upload_part` catches
exceptions and returns `None` (lines 67-82), modelled per submitted chunk by
`partSucceeds` with the returned ETag in `etagOf`; `complete_multipart_upload`
returns a boolean (lines 84-96); `generate_presigned_url` returns the URL or
`None` (lines 98-112).  `downloadRaises` models an exception from the
Telegram download step (line 324), caught by the handler's outer
`try/except`. -/
structure S3Env where
  startResult : Option String
  etagOf : Nat → String
  partSucceeds : Nat → Bool
  completeSucceeds : Bool
  presignResult : Option String
  downloadRaises : Bool

/-- `InstantUploadS3Client.start_multipart_upload` (bot.py lines 55-65):
returns the UploadId, or `none` on error. -/
def start_multipart_upload (env : S3Env) : Option String :=
  env.startResult

/-- `InstantUploadS3Client.upload_part` (bot.py lines 67-82): on success
returns the part record with the store's ETag and the part number that was
sent; on error returns `none`. -/
def upload_part (env : S3Env) (chunkIdx partNumber : Nat) : Option Part :=
  if env.partSucceeds chunkIdx then some ⟨env.etagOf chunkIdx, partNumber⟩ else none

/-- Recursion core of the chunk-read loop, structurally recursive on a fuel
argument so that concrete runs reduce; the fuel is an upper bound on the
number of remaining bytes, which strictly decreases at every iteration. -/
def read_chunks_aux (chunkSize : Nat) : Nat → List Nat → List (List Nat)
  | 0, _ => []
  | _ + 1, [] => []
  | fuel + 1, b :: bs =>
    if chunkSize = 0 then []
    else (b :: bs).take chunkSize ::
      read_chunks_aux chunkSize fuel ((b :: bs).drop chunkSize)

/-- The chunk-read loop of the handler (bot.py lines 336-343):
`file_obj.read(chunk_size)` repeatedly until an empty read.  A read of a
nonempty file with a positive chunk size yields the first `chunkSize` bytes;
`read(0)` yields an empty chunk, which terminates the loop at once. -/
def read_chunks (chunkSize : Nat) (data : List Nat) : List (List Nat) :=
  read_chunks_aux chunkSize data.length data

/-- The mutable state of `SimpleInstantUploader` (bot.py lines 190-200)
relevant to the transfer: the accumulated `uploaded_size`, the `parts`
list, and the next `part_number` (initially 1). -/
structure UploaderState where
  uploadedSize : Nat
  parts : List Part
  partNumber : Nat
deriving Repr, DecidableEq

/-- The uploader's initial state (bot.py lines 197-200). -/
def initState : UploaderState := ⟨0, [], 1⟩

/-- Everything produced by the chunk-upload loop: the final uploader state,
the sequence of `uploaded_size` values passed to the progress hook (one per
successful nonempty part, as `progress_callback` is invoked only after the
store call succeeded and only when `len(data)` is nonzero, bot.py lines
77-78 and 210-222), the `(partNumber, payload)` pairs the remote store
accepted, and the trace of `upload_part` calls. -/
structure LoopOut where
  state : UploaderState
  events : List Nat
  stored : List (Nat × List Nat)
  calls : List S3Call
deriving Repr, DecidableEq

/-- The handler's upload loop (bot.py lines 337-343) driving
`SimpleInstantUploader.upload_chunk` (lines 224-244) on each chunk in order:
the part is uploaded under the current `part_number`; on success the
progress callback adds the chunk length to `uploaded_size` (lines 77-78,
210-212), the part is appended and `part_number` incremented (lines
240-242); on failure the state is left unchanged and the loop simply
continues with the next chunk (line 343 ignores the return value). -/
def upload_chunks (env : S3Env) : Nat → UploaderState → List (List Nat) → LoopOut
  | _, st, [] => ⟨st, [], [], []⟩
  | idx, st, c :: cs =>
    match upload_part env idx st.partNumber with
    | some part =>
      let newSize := st.uploadedSize + c.length
      let st' : UploaderState := ⟨newSize, st.parts ++ [part], st.partNumber + 1⟩
      let rest := upload_chunks env (idx + 1) st' cs
      ⟨rest.state,
        (if c.length = 0 then [] else [newSize]) ++ rest.events,
        (st.partNumber, c) :: rest.stored,
        S3Call.uploadPart idx st.partNumber :: rest.calls⟩
    | none =>
      let rest := upload_chunks env (idx + 1) st cs
      ⟨rest.state, rest.events, rest.stored,
        S3Call.uploadPart idx st.partNumber :: rest.calls⟩

/-- `SimpleInstantUploader.complete_upload` (bot.py lines 246-262): with no
UploadId it returns failure without a remote call; otherwise it sorts the
parts by part number and issues the completion call, whose outcome the
oracle gives.  The second component is the parts list passed to the remote
call. -/
def complete_upload (env : S3Env) (uploadId : Option String)
    (st : UploaderState) : Bool × List Part :=
  match uploadId with
  | none => (false, st.parts)
  | some _ =>
    let sorted := List.insertionSort (fun a b => a.partNumber ≤ b.partNumber) st.parts
    (env.completeSucceeds, sorted)

/-- The terminal outcome of one run of the handler, mirroring the early
returns of bot.py lines 309-384. -/
inductive Outcome where
  | startFailed
  | downloadError
  | completeFailed
  | presignFailed
  | success (url : String)
deriving Repr, DecidableEq

/-- One run of the handler, fully observed: outcome, trace of remote calls,
URL returned to the user (if any), progress-event values, payloads stored
remotely, the parts list at completion time and the final accumulated
size. -/
structure HandlerResult where
  outcome : Outcome
  calls : List S3Call
  url : Option String
  events : List Nat
  stored : List (Nat × List Nat)
  finalParts : List Part
  uploadedSize : Nat
deriving Repr, DecidableEq

/-- `instant_upload_handler` (bot.py lines 309-384).  The control flow is:
start the multipart upload and return on failure (lines 312-316); download
the whole file to a temporary file and wait for it (lines 321-332, an
exception lands in the outer handler, line 382, which only edits the status
message); then read the local file in chunks and upload each (lines
334-343); complete the upload and return on failure (lines 346-350);
generate the presigned URL and return on failure (lines 353-357); otherwise
reply with the URL.  No branch ever issues an abort call. -/
def instant_upload_handler (env : S3Env) (fileData : List Nat)
    (chunkSize : Nat) : HandlerResult :=
  match start_multipart_upload env with
  | none => ⟨.startFailed, [.start], none, [], [], [], 0⟩
  | some uid =>
    if env.downloadRaises then
      ⟨.downloadError, [.start], none, [], [], [], 0⟩
    else
      let chunks := read_chunks chunkSize fileData
      let loop := upload_chunks env 0 initState chunks
      let comp := complete_upload env (some uid) loop.state
      let baseCalls := S3Call.start :: S3Call.downloadComplete ::
        loop.calls ++ [S3Call.complete comp.2]
      if comp.1 then
        match env.presignResult with
        | some url =>
          ⟨.success url, baseCalls ++ [.presign], some url, loop.events,
            loop.stored, comp.2, loop.state.uploadedSize⟩
        | none =>
          ⟨.presignFailed, baseCalls ++ [.presign], none, loop.events,
            loop.stored, comp.2, loop.state.uploadedSize⟩
      else
        ⟨.completeFailed, baseCalls, none, loop.events, loop.stored,
          comp.2, loop.state.uploadedSize⟩

/-- Python's `round` (banker's rounding, round half to even) on an exact
rational, as used on `diff % 1.00` in `progress_hook` (bot.py line 151). -/
def pyRound (q : ℚ) : ℤ :=
  if q - ⌊q⌋ < 1/2 then ⌊q⌋
  else if 1/2 < q - ⌊q⌋ then ⌊q⌋ + 1
  else if ⌊q⌋ % 2 = 0 then ⌊q⌋ else ⌊q⌋ + 1

/-- The gate of `progress_hook` (bot.py line 151):
`round(diff % 1.00) == 0 or current == total`, where `diff % 1.00` is the
fractional part of the elapsed time. -/
def shouldRender (diff : ℚ) (current total : Nat) : Bool :=
  pyRound (Int.fract diff) == 0 || current == total

/-- `get_progress_bar` (bot.py lines 138-143).  With `total = 0` both
`current * 100 / total` and `20 * current // total` raise
`ZeroDivisionError`, modelled as `none`; otherwise the percentage and the
20-character bar are produced. -/
def get_progress_bar (current total : Nat) : Option (ℚ × String) :=
  if total = 0 then none
  else
    let percentage : ℚ := (current : ℚ) * 100 / (total : ℚ)
    let filled_length : Nat := 20 * current / total
    some (percentage,
      String.mk (List.replicate filled_length '█' ++
        List.replicate (20 - filled_length) '░'))

/-- Whether a trace entry is an `upload_part` call. -/
def S3Call.isUpload : S3Call → Bool
  | .uploadPart _ _ => true
  | _ => false

/-- The bookkeeping invariant of `SimpleInstantUploader`: the recorded parts
carry the part numbers `1, 2, ..., len` in order, and the next part number
to be assigned is `len + 1`. -/
def partsInvariant (st : UploaderState) : Prop :=
  st.parts.map Part.partNumber = List.range' 1 st.parts.length ∧
  st.partNumber = st.parts.length + 1

/-- Scans a trace and checks that the download milestone comes before any
part upload: it is `true` exactly when no `upload_part` call occurs before
`downloadComplete` in the trace. -/
def downloadPrecedesUploads : List S3Call → Bool
  | [] => true
  | S3Call.uploadPart _ _ :: _ => false
  | S3Call.downloadComplete :: _ => true
  | _ :: rest => downloadPrecedesUploads rest

/-- A remote store in which every call succeeds. -/
def envOk : S3Env :=
  ⟨some "uid", fun _ => "E", fun _ => true, true, some "https://link", false⟩

/-- A remote store in which everything succeeds except the completion
call. -/
def envNoComplete : S3Env :=
  ⟨some "uid", fun _ => "E", fun _ => true, false, some "https://link", false⟩

/-- A remote store in which the first submitted part fails (its retry
budget, handled inside the SDK client, is exhausted) and everything else
succeeds. -/
def envPartFail : S3Env :=
  ⟨some "uid", fun _ => "E", fun i => i != 0, true, some "https://link", false⟩

/-! ### Basic lemmas about the chunk reader -/

theorem read_chunks_aux_nil (C fuel : Nat) : read_chunks_aux C fuel [] = [] := by
  cases fuel <;> rfl

theorem read_chunks_aux_fuel_irrel (C : Nat) :
    ∀ fuel fuel' data, data.length ≤ fuel → data.length ≤ fuel' →
      read_chunks_aux C fuel data = read_chunks_aux C fuel' data := by
  intro fuel
  induction fuel with
  | zero =>
    intro fuel' data h _
    have hd : data = [] := List.eq_nil_of_length_eq_zero (Nat.le_zero.mp h)
    subst hd
    simp [read_chunks_aux_nil]
  | succ f ih =>
    intro fuel' data h h'
    cases data with
    | nil => simp [read_chunks_aux_nil]
    | cons b bs =>
      cases fuel' with
      | zero => simp at h'
      | succ f' =>
        simp only [read_chunks_aux]
        by_cases hC : C = 0
        · simp [hC]
        · simp only [hC, if_false]
          have hb : bs.length + 1 ≤ f + 1 := by simpa using h
          have hb' : bs.length + 1 ≤ f' + 1 := by simpa using h'
          have hC1 : 1 ≤ C := Nat.one_le_iff_ne_zero.mpr hC
          have hlen : ((b :: bs).drop C).length ≤ f := by
            simp only [List.length_drop, List.length_cons]
            omega
          have hlen' : ((b :: bs).drop C).length ≤ f' := by
            simp only [List.length_drop, List.length_cons]
            omega
          rw [ih f' _ hlen hlen']

theorem read_chunks_cons (C : Nat) (data : List Nat) (h1 : data ≠ [])
    (h2 : C ≠ 0) :
    read_chunks C data = data.take C :: read_chunks C (data.drop C) := by
  cases data with
  | nil => exact absurd rfl h1
  | cons b bs =>
    show read_chunks_aux C (bs.length + 1) (b :: bs) = _
    simp only [read_chunks_aux, h2, if_false]
    have hC1 : 1 ≤ C := Nat.one_le_iff_ne_zero.mpr h2
    have hlen : ((b :: bs).drop C).length ≤ bs.length := by
      simp only [List.length_drop, List.length_cons]
      omega
    rw [read_chunks_aux_fuel_irrel C bs.length ((b :: bs).drop C).length _ hlen le_rfl]
    rfl

theorem read_chunks_aux_flatten (C : Nat) (hC : C ≠ 0) :
    ∀ fuel data, data.length ≤ fuel →
      (read_chunks_aux C fuel data).flatten = data := by
  intro fuel
  induction fuel with
  | zero =>
    intro data h
    rw [List.eq_nil_of_length_eq_zero (Nat.le_zero.mp h)]
    rfl
  | succ f ih =>
    intro data h
    cases data with
    | nil => rfl
    | cons b bs =>
      simp only [read_chunks_aux, hC, if_false, List.flatten_cons]
      have hC1 : 1 ≤ C := Nat.one_le_iff_ne_zero.mpr hC
      have hlen : ((b :: bs).drop C).length ≤ f := by
        simp only [List.length_drop, List.length_cons]
        simp only [List.length_cons] at h
        omega
      rw [ih _ hlen]
      exact List.take_append_drop C (b :: bs)

/-- With a positive chunk size, concatenating the chunks read by the
handler's read loop reproduces the file's bytes exactly. -/
theorem read_chunks_flatten (C : Nat) (hC : C ≠ 0) (data : List Nat) :
    (read_chunks C data).flatten = data :=
  read_chunks_aux_flatten C hC data.length data le_rfl

theorem read_chunks_aux_length (C : Nat) (hC : C ≠ 0) :
    ∀ fuel data, data.length ≤ fuel → data ≠ [] →
      (read_chunks_aux C fuel data).length = (data.length + C - 1) / C := by
  intro fuel
  induction fuel with
  | zero =>
    intro data h hne
    exact absurd (List.eq_nil_of_length_eq_zero (Nat.le_zero.mp h)) hne
  | succ f ih =>
    intro data h hne
    cases data with
    | nil => exact absurd rfl hne
    | cons b bs =>
      simp only [read_chunks_aux, hC, if_false, List.length_cons]
      have hC1 : 1 ≤ C := Nat.one_le_iff_ne_zero.mpr hC
      have hlen : ((b :: bs).drop C).length ≤ f := by
        simp only [List.length_drop, List.length_cons]
        simp only [List.length_cons] at h
        omega
      by_cases hsmall : bs.length + 1 ≤ C
      · have hdrop : (b :: bs).drop C = [] := by
          rw [List.drop_eq_nil_iff]
          simpa using hsmall
        rw [hdrop, read_chunks_aux_nil]
        have h1 : (bs.length + C) / C = 1 :=
          Nat.div_eq_of_lt_le (by omega) (by omega)
        simp [h1]
      · push_neg at hsmall
        have hdropne : (b :: bs).drop C ≠ [] := by
          intro hnil
          rw [List.drop_eq_nil_iff] at hnil
          simp only [List.length_cons] at hnil
          omega
        rw [ih _ hlen hdropne]
        simp only [List.length_drop, List.length_cons]
        have hsplit : bs.length + 1 + C - 1 = (bs.length + 1 - C + C - 1) + C := by
          omega
        rw [hsplit, Nat.add_div_right _ (Nat.pos_of_ne_zero hC)]

/-- With a positive chunk size and a nonempty file, the read loop produces
exactly `ceil(size / chunkSize)` chunks. -/
theorem read_chunks_length (C : Nat) (hC : C ≠ 0) (data : List Nat)
    (hne : data ≠ []) :
    (read_chunks C data).length = (data.length + C - 1) / C :=
  read_chunks_aux_length C hC data.length data le_rfl hne

/-! ### Lemmas about the chunk-upload loop -/

theorem upload_part_partNumber (env : S3Env) (i n : Nat) (p : Part)
    (h : upload_part env i n = some p) : p.partNumber = n := by
  unfold upload_part at h
  split at h
  · cases h
    rfl
  · cases h

/-- The chunk loop issues exactly one `upload_part` call per chunk, whatever
the per-part outcomes, and issues no other remote call. -/
theorem upload_chunks_calls (env : S3Env) :
    ∀ (chunks : List (List Nat)) (idx : Nat) (st : UploaderState),
      (∀ c ∈ (upload_chunks env idx st chunks).calls, c.isUpload = true) ∧
      (upload_chunks env idx st chunks).calls.length = chunks.length := by
  intro chunks
  induction chunks with
  | nil =>
    intro idx st
    exact ⟨fun c hc => absurd hc (List.not_mem_nil c), rfl⟩
  | cons c cs ih =>
    intro idx st
    simp only [upload_chunks]
    cases hp : upload_part env idx st.partNumber with
    | some part =>
      obtain ⟨ih1, ih2⟩ := ih (idx + 1)
        ⟨st.uploadedSize + c.length, st.parts ++ [part], st.partNumber + 1⟩
      refine ⟨?_, by simpa using ih2⟩
      intro x hx
      simp only [List.mem_cons] at hx
      rcases hx with hx | hx
      · subst hx
        rfl
      · exact ih1 x hx
    | none =>
      obtain ⟨ih1, ih2⟩ := ih (idx + 1) st
      refine ⟨?_, by simpa using ih2⟩
      intro x hx
      simp only [List.mem_cons] at hx
      rcases hx with hx | hx
      · subst hx
        rfl
      · exact ih1 x hx

/-- The chunk loop preserves the bookkeeping invariant: the part counter is
incremented exactly when a part is appended, so a failed chunk's part
number is reused by the next chunk and no gap appears. -/
theorem upload_chunks_invariant (env : S3Env) :
    ∀ (chunks : List (List Nat)) (idx : Nat) (st : UploaderState),
      partsInvariant st →
      partsInvariant (upload_chunks env idx st chunks).state := by
  intro chunks
  induction chunks with
  | nil =>
    intro idx st h
    exact h
  | cons c cs ih =>
    intro idx st h
    simp only [upload_chunks]
    cases hp : upload_part env idx st.partNumber with
    | none => exact ih (idx + 1) st h
    | some part =>
      apply ih
      obtain ⟨h1, h2⟩ := h
      have hpn : part.partNumber = st.partNumber :=
        upload_part_partNumber env idx st.partNumber part hp
      constructor
      · simp only [List.map_append, List.map_cons, List.map_nil,
          List.length_append, List.length_cons, List.length_nil, h1, hpn, h2]
        rw [List.range'_concat]
        simp [Nat.add_comm]
      · simp only [List.length_append, List.length_cons, List.length_nil, h2]

/-- The accumulated `uploaded_size` after the loop is the starting size plus
the total length of exactly those payloads the remote store acknowledged:
bytes of failed parts are never counted. -/
theorem upload_chunks_size (env : S3Env) :
    ∀ (chunks : List (List Nat)) (idx : Nat) (st : UploaderState),
      (upload_chunks env idx st chunks).state.uploadedSize =
        st.uploadedSize +
          ((upload_chunks env idx st chunks).stored.map
            (fun p => p.2.length)).sum := by
  intro chunks
  induction chunks with
  | nil =>
    intro idx st
    simp [upload_chunks]
  | cons c cs ih =>
    intro idx st
    simp only [upload_chunks]
    cases hp : upload_part env idx st.partNumber with
    | some part =>
      have := ih (idx + 1)
        ⟨st.uploadedSize + c.length, st.parts ++ [part], st.partNumber + 1⟩
      dsimp only at this
      simp only [List.map_cons, List.sum_cons]
      omega
    | none =>
      have := ih (idx + 1) st
      simpa using this

/-- The `uploaded_size` values reported to the progress hook form a
non-decreasing sequence, every one of them at least the size accumulated
before the loop started. -/
theorem upload_chunks_events (env : S3Env) :
    ∀ (chunks : List (List Nat)) (idx : Nat) (st : UploaderState),
      List.Chain' (fun a b : Nat => a ≤ b)
        (upload_chunks env idx st chunks).events ∧
      ∀ e ∈ (upload_chunks env idx st chunks).events, st.uploadedSize ≤ e := by
  intro chunks
  induction chunks with
  | nil =>
    intro idx st
    simp [upload_chunks]
  | cons c cs ih =>
    intro idx st
    simp only [upload_chunks]
    cases hp : upload_part env idx st.partNumber with
    | none => exact ih (idx + 1) st
    | some part =>
      obtain ⟨hch, hbd⟩ := ih (idx + 1)
        ⟨st.uploadedSize + c.length, st.parts ++ [part], st.partNumber + 1⟩
      dsimp only at hch hbd
      by_cases hc : c.length = 0
      · simp only [hc] at hch hbd
        simp only [hc, if_true, List.nil_append]
        refine ⟨hch, fun e he => ?_⟩
        have := hbd e he
        omega
      · simp only [hc, if_false, List.singleton_append]
        constructor
        · rw [List.chain'_cons']
          refine ⟨fun y hy => ?_, hch⟩
          exact hbd y (List.mem_of_mem_head? hy)
        · intro e he
          simp only [List.mem_cons] at he
          rcases he with he | he
          · omega
          · have := hbd e he
            omega

/-- When every part upload succeeds, the remote store receives exactly the
chunks that were read, in order, under the consecutive part numbers
starting at the loop's initial part counter. -/
theorem upload_chunks_stored_success (env : S3Env)
    (hs : ∀ i, env.partSucceeds i = true) :
    ∀ (chunks : List (List Nat)) (idx : Nat) (st : UploaderState),
      (upload_chunks env idx st chunks).stored.map Prod.snd = chunks ∧
      (upload_chunks env idx st chunks).stored.map Prod.fst =
        List.range' st.partNumber chunks.length := by
  intro chunks
  induction chunks with
  | nil =>
    intro idx st
    simp [upload_chunks]
  | cons c cs ih =>
    intro idx st
    simp only [upload_chunks, upload_part, hs idx, if_true]
    obtain ⟨ih1, ih2⟩ := ih (idx + 1)
      ⟨st.uploadedSize + c.length, st.parts ++ [⟨env.etagOf idx, st.partNumber⟩],
        st.partNumber + 1⟩
    dsimp only at ih1 ih2
    constructor
    · simp only [List.map_cons]
      rw [ih1]
    · simp only [List.map_cons, List.length_cons]
      rw [ih2, List.range'_succ]

/-- A parts list carrying the consecutive numbers `1..len` is sorted by part
number, so the sort in `complete_upload` leaves it unchanged. -/
theorem parts_sort_eq_self (l : List Part)
    (h : l.map Part.partNumber = List.range' 1 l.length) :
    List.insertionSort (fun a b : Part => a.partNumber ≤ b.partNumber) l = l := by
  apply List.Sorted.insertionSort_eq
  have hp : List.Pairwise (fun a b : Nat => a < b) (l.map Part.partNumber) := by
    rw [h]
    exact List.pairwise_lt_range' 1 l.length
  rw [List.pairwise_map] at hp
  exact hp.imp (fun hab => le_of_lt hab)

/-! ### Lemmas about the handler's branches -/

theorem handler_start_fail (env : S3Env) (d : List Nat) (C : Nat)
    (h : env.startResult = none) :
    instant_upload_handler env d C =
      ⟨Outcome.startFailed, [S3Call.start], none, [], [], [], 0⟩ := by
  unfold instant_upload_handler start_multipart_upload
  rw [h]

theorem handler_download_fail (env : S3Env) (d : List Nat) (C : Nat)
    (u : String) (hu : env.startResult = some u)
    (hd : env.downloadRaises = true) :
    instant_upload_handler env d C =
      ⟨Outcome.downloadError, [S3Call.start], none, [], [], [], 0⟩ := by
  unfold instant_upload_handler start_multipart_upload
  rw [hu, hd]
  simp

/-- When the remote session opens and the download succeeds, the run's
observations come from the chunk loop, and the trace is the start call, the
download milestone, the part uploads, the completion call on the sorted
parts list, and (when completion succeeded) the presign call. -/
theorem handler_run (env : S3Env) (d : List Nat) (C : Nat) (u : String)
    (hu : env.startResult = some u) (hd : env.downloadRaises = false) :
    (instant_upload_handler env d C).events =
        (upload_chunks env 0 initState (read_chunks C d)).events ∧
    (instant_upload_handler env d C).stored =
        (upload_chunks env 0 initState (read_chunks C d)).stored ∧
    (instant_upload_handler env d C).uploadedSize =
        (upload_chunks env 0 initState (read_chunks C d)).state.uploadedSize ∧
    ((instant_upload_handler env d C).calls =
        S3Call.start :: S3Call.downloadComplete ::
          ((upload_chunks env 0 initState (read_chunks C d)).calls ++
            [S3Call.complete (List.insertionSort
              (fun a b : Part => a.partNumber ≤ b.partNumber)
              (upload_chunks env 0 initState (read_chunks C d)).state.parts)]) ∨
      (instant_upload_handler env d C).calls =
        S3Call.start :: S3Call.downloadComplete ::
          ((upload_chunks env 0 initState (read_chunks C d)).calls ++
            [S3Call.complete (List.insertionSort
              (fun a b : Part => a.partNumber ≤ b.partNumber)
              (upload_chunks env 0 initState (read_chunks C d)).state.parts)] ++
            [S3Call.presign])) := by
  unfold instant_upload_handler start_multipart_upload complete_upload
  rw [hu, hd]
  by_cases hcs : env.completeSucceeds
  · cases hpr : env.presignResult with
    | some url => simp [hcs, hpr]
    | none => simp [hcs, hpr]
  · simp [hcs]

/-- When the completion call fails, the run returns no URL and its trace
ends at the completion call. -/
theorem handler_complete_fail (env : S3Env) (d : List Nat) (C : Nat)
    (u : String) (hu : env.startResult = some u)
    (hd : env.downloadRaises = false) (hcs : env.completeSucceeds = false) :
    (instant_upload_handler env d C).url = none ∧
    (instant_upload_handler env d C).calls =
      S3Call.start :: S3Call.downloadComplete ::
        ((upload_chunks env 0 initState (read_chunks C d)).calls ++
          [S3Call.complete (List.insertionSort
            (fun a b : Part => a.partNumber ≤ b.partNumber)
            (upload_chunks env 0 initState (read_chunks C d)).state.parts)]) := by
  unfold instant_upload_handler start_multipart_upload complete_upload
  rw [hu, hd]
  simp [hcs]

theorem abort_not_in_loop (env : S3Env) (d : List Nat) (C : Nat) :
    S3Call.abort ∉ (upload_chunks env 0 initState (read_chunks C d)).calls := by
  intro hmem
  have := (upload_chunks_calls env (read_chunks C d) 0 initState).1 _ hmem
  simp [S3Call.isUpload] at this

theorem presign_not_in_loop (env : S3Env) (d : List Nat) (C : Nat) :
    S3Call.presign ∉ (upload_chunks env 0 initState (read_chunks C d)).calls := by
  intro hmem
  have := (upload_chunks_calls env (read_chunks C d) 0 initState).1 _ hmem
  simp [S3Call.isUpload] at this

/-! ### The claims -/

/-- Claim C1, amended.  The handler never invokes the abort operation: in
every run, over every remote-store behaviour, no `abort` call appears in
the trace — in particular a session that opened a multipart upload but did
not complete it is left orphaned rather than aborted. -/
theorem C1_abort_never_invoked (env : S3Env) (d : List Nat) (C : Nat) :
    S3Call.abort ∉ (instant_upload_handler env d C).calls := by
  cases hu : env.startResult with
  | none =>
    rw [handler_start_fail env d C hu]
    simp
  | some u =>
    cases hd : env.downloadRaises with
    | true =>
      rw [handler_download_fail env d C u hu hd]
      simp
    | false =>
      have hnotin := abort_not_in_loop env d C
      rcases handler_run env d C u hu hd with ⟨-, -, -, hcalls | hcalls⟩ <;>
        rw [hcalls] <;> simp [hnotin]

/-- Claim C1, counterexample to the claim as stated: a run whose remote
session opened (`start` succeeded) and never completed (the completion call
failed), in which the abort operation is invoked zero times, not exactly
once. -/
theorem C1_counterexample :
    envNoComplete.startResult = some "uid" ∧
    (instant_upload_handler envNoComplete [0, 1, 2] 2).outcome =
      Outcome.completeFailed ∧
    S3Call.start ∈ (instant_upload_handler envNoComplete [0, 1, 2] 2).calls ∧
    S3Call.abort ∉ (instant_upload_handler envNoComplete [0, 1, 2] 2).calls := by
  refine ⟨rfl, by decide, by decide, by decide⟩

/-- Claim C2, amended.  In every run the entire object is first committed
to local disk: the download milestone precedes every chunk submission in
the trace, so chunks are read from the local copy only after the whole
object has been downloaded. -/
theorem C2_amended_download_first (env : S3Env) (d : List Nat) (C : Nat) :
    downloadPrecedesUploads (instant_upload_handler env d C).calls = true := by
  cases hu : env.startResult with
  | none =>
    rw [handler_start_fail env d C hu]
    rfl
  | some u =>
    cases hd : env.downloadRaises with
    | true =>
      rw [handler_download_fail env d C u hu hd]
      rfl
    | false =>
      rcases handler_run env d C u hu hd with ⟨-, -, -, hcalls | hcalls⟩ <;>
        rw [hcalls] <;> rfl

/-- Claim C2, counterexample to the claim as stated: a concrete transfer in
which the whole object is committed to local disk (the download completes)
before any chunk is submitted for remote upload — the trace shows
`downloadComplete` strictly before every `uploadPart`. -/
theorem C2_counterexample :
    (instant_upload_handler envOk [0, 1, 2] 2).calls =
        [S3Call.start, S3Call.downloadComplete, S3Call.uploadPart 0 1,
          S3Call.uploadPart 1 2,
          S3Call.complete [⟨"E", 1⟩, ⟨"E", 2⟩], S3Call.presign] ∧
    S3Call.uploadPart 0 1 ∈ (instant_upload_handler envOk [0, 1, 2] 2).calls ∧
    downloadPrecedesUploads (instant_upload_handler envOk [0, 1, 2] 2).calls
      = true := by
  refine ⟨by decide, by decide, by decide⟩

/-- Claim C3: no access URL is generated or returned unless the remote
completion call succeeded; every failing run returns no URL and issues no
presign call. -/
theorem C3_no_url_before_completion (env : S3Env) (d : List Nat) (C : Nat) :
    ((instant_upload_handler env d C).url.isSome = true →
        env.completeSucceeds = true) ∧
    (S3Call.presign ∈ (instant_upload_handler env d C).calls →
        env.completeSucceeds = true) := by
  cases hu : env.startResult with
  | none =>
    rw [handler_start_fail env d C hu]
    exact ⟨by simp, by simp⟩
  | some u =>
    cases hd : env.downloadRaises with
    | true =>
      rw [handler_download_fail env d C u hu hd]
      exact ⟨by simp, by simp⟩
    | false =>
      by_cases hcs : env.completeSucceeds
      · exact ⟨fun _ => hcs, fun _ => hcs⟩
      · obtain ⟨hurl, hcalls⟩ := handler_complete_fail env d C u hu hd
          (Bool.eq_false_iff.mpr hcs)
        have hnotin := presign_not_in_loop env d C
        constructor
        · rw [hurl]
          simp
        · rw [hcalls]
          simp [hnotin]

/-- Claim C3 witness: the theorem applied to the all-success store, where
the URL is returned, forcing `completeSucceeds`. -/
theorem C3_witness : envOk.completeSucceeds = true :=
  (C3_no_url_before_completion envOk [0, 1, 2] 2).1 (by decide)

/-- Claim C4, counterexample to the claim as stated: the first part's
upload fails (its SDK-internal retry budget exhausted), yet the transfer
does not transition to Failed — the next chunk is still submitted (under
the reused part number 1), the session completes successfully, and no
abort call is ever made. -/
theorem C4_counterexample :
    envPartFail.partSucceeds 0 = false ∧
    (instant_upload_handler envPartFail [0, 1, 2] 2).calls =
        [S3Call.start, S3Call.downloadComplete, S3Call.uploadPart 0 1,
          S3Call.uploadPart 1 1, S3Call.complete [⟨"E", 1⟩],
          S3Call.presign] ∧
    (instant_upload_handler envPartFail [0, 1, 2] 2).outcome =
        Outcome.success "https://link" ∧
    S3Call.abort ∉ (instant_upload_handler envPartFail [0, 1, 2] 2).calls := by
  refine ⟨rfl, by decide, by decide, by decide⟩

/-- Claim C4, amended.  A failed part upload is not retried by the
uploader and does not fail the session: every chunk is submitted exactly
once whatever the per-part outcomes (so the loop continues past failures),
and the abort operation is never invoked. -/
theorem C4_amended_no_retry_no_abort (env : S3Env) (d : List Nat) (C : Nat)
    (u : String) (hu : env.startResult = some u)
    (hd : env.downloadRaises = false) :
    (instant_upload_handler env d C).calls.countP S3Call.isUpload =
        (read_chunks C d).length ∧
    S3Call.abort ∉ (instant_upload_handler env d C).calls := by
  have hshape := (upload_chunks_calls env (read_chunks C d) 0 initState).1
  have hlen := (upload_chunks_calls env (read_chunks C d) 0 initState).2
  have hcount : (upload_chunks env 0 initState
      (read_chunks C d)).calls.countP S3Call.isUpload =
      (read_chunks C d).length := by
    rw [List.countP_eq_length.mpr hshape, hlen]
  have hnotin := abort_not_in_loop env d C
  rcases handler_run env d C u hu hd with ⟨-, -, -, hcalls | hcalls⟩ <;>
    rw [hcalls] <;>
    exact ⟨by simp [List.countP_cons, List.countP_append, S3Call.isUpload,
        hcount], by simp [hnotin]⟩

/-- Claim C4 witness: the amended theorem applied to the store in which
the first part fails, on a two-chunk file. -/
theorem C4_witness :
    envPartFail.startResult = some "uid" ∧
    envPartFail.downloadRaises = false ∧
    ((instant_upload_handler envPartFail [0, 1, 2] 2).calls.countP
        S3Call.isUpload = (read_chunks 2 [0, 1, 2]).length ∧
      S3Call.abort ∉ (instant_upload_handler envPartFail [0, 1, 2] 2).calls) :=
  ⟨rfl, rfl, C4_amended_no_retry_no_abort envPartFail [0, 1, 2] 2 "uid" rfl rfl⟩

/-- Claim C5: whenever the handler reaches finalization, the parts list it
passes to the remote completion call carries exactly the part numbers
`1, 2, ..., len` in strictly ascending order, whatever the remote store's
per-part outcomes. -/
theorem C5_complete_parts_contiguous (env : S3Env) (d : List Nat) (C : Nat)
    (ps : List Part)
    (h : S3Call.complete ps ∈ (instant_upload_handler env d C).calls) :
    ps.map Part.partNumber = List.range' 1 ps.length := by
  cases hu : env.startResult with
  | none =>
    rw [handler_start_fail env d C hu] at h
    simp at h
  | some u =>
    cases hd : env.downloadRaises with
    | true =>
      rw [handler_download_fail env d C u hu hd] at h
      simp at h
    | false =>
      obtain ⟨hmap, hnum⟩ := upload_chunks_invariant env (read_chunks C d) 0
        initState ⟨rfl, rfl⟩
      have hsort := parts_sort_eq_self _ hmap
      have hshape := (upload_chunks_calls env (read_chunks C d) 0 initState).1
      rcases handler_run env d C u hu hd with ⟨-, -, -, hcalls | hcalls⟩ <;>
        rw [hcalls] at h <;>
        · simp only [List.mem_cons, List.mem_append, List.mem_singleton,
            List.mem_nil_iff, reduceCtorEq, false_or, or_false,
            S3Call.complete.injEq] at h
          rcases h with h | h
          · have := hshape _ h
            simp [S3Call.isUpload] at this
          · subst h
            rw [hsort]
            exact hmap

/-- Claim C5 witness: the theorem applied to a concrete successful
two-chunk run. -/
theorem C5_witness :
    ([⟨"E", 1⟩, ⟨"E", 2⟩] : List Part).map Part.partNumber =
      List.range' 1 ([⟨"E", 1⟩, ⟨"E", 2⟩] : List Part).length :=
  C5_complete_parts_contiguous envOk [0, 1, 2] 2 _ (by decide)

/-- Claim C6: for a nonempty file and positive chunk size, when every part
upload succeeds, the handler submits exactly `ceil(size / chunkSize)` parts,
the remote store holds them under the ascending contiguous part numbers
starting at 1, and concatenating the stored payloads in that order
reproduces the file's bytes exactly. -/
theorem C6_round_trip (env : S3Env) (d : List Nat) (C : Nat) (u : String)
    (hu : env.startResult = some u) (hd : env.downloadRaises = false)
    (hs : ∀ i, env.partSucceeds i = true) (hne : d ≠ []) (hC : C ≠ 0) :
    (instant_upload_handler env d C).calls.countP S3Call.isUpload =
        (d.length + C - 1) / C ∧
    (instant_upload_handler env d C).stored.map Prod.fst =
        List.range' 1 (instant_upload_handler env d C).stored.length ∧
    ((instant_upload_handler env d C).stored.map Prod.snd).flatten = d := by
  obtain ⟨hev, hst, hsz, hcalls⟩ := handler_run env d C u hu hd
  obtain ⟨hsnd, hfst⟩ :=
    upload_chunks_stored_success env hs (read_chunks C d) 0 initState
  have hcount : (upload_chunks env 0 initState
      (read_chunks C d)).calls.countP S3Call.isUpload =
      (read_chunks C d).length := by
    rw [List.countP_eq_length.mpr
        (upload_chunks_calls env (read_chunks C d) 0 initState).1,
      (upload_chunks_calls env (read_chunks C d) 0 initState).2]
  have hslen : (upload_chunks env 0 initState
      (read_chunks C d)).stored.length = (read_chunks C d).length := by
    have := congrArg List.length hsnd
    simpa using this
  refine ⟨?_, ?_, ?_⟩
  · rcases hcalls with hc | hc <;>
      rw [hc] <;>
      simp [List.countP_cons, List.countP_append, S3Call.isUpload, hcount,
        read_chunks_length C hC d hne]
  · rw [hst, hfst, hslen]
    rfl
  · rw [hst, hsnd]
    exact read_chunks_flatten C hC d

/-- Claim C6 witness: the theorem applied to a concrete three-byte file
uploaded with chunk size 2 against the all-success store. -/
theorem C6_witness :
    envOk.startResult = some "uid" ∧ envOk.downloadRaises = false ∧
    ([0, 1, 2] : List Nat) ≠ [] ∧ (2 : Nat) ≠ 0 ∧
    ((instant_upload_handler envOk [0, 1, 2] 2).calls.countP S3Call.isUpload =
        (([0, 1, 2] : List Nat).length + 2 - 1) / 2 ∧
      (instant_upload_handler envOk [0, 1, 2] 2).stored.map Prod.fst =
        List.range' 1 (instant_upload_handler envOk [0, 1, 2] 2).stored.length ∧
      ((instant_upload_handler envOk [0, 1, 2] 2).stored.map
        Prod.snd).flatten = [0, 1, 2]) :=
  ⟨rfl, rfl, by decide, by decide,
    C6_round_trip envOk [0, 1, 2] 2 "uid" rfl rfl (fun _ => rfl)
      (by decide) (by decide)⟩

/-- Claim C7: the accumulated `uploaded_size` equals the total length of
exactly the payloads whose upload call succeeded (in-flight or failed
bytes are never counted), the reported progress values are monotonically
non-decreasing, and on a fully successful transfer with positive chunk
size the final accumulated size equals the file's size exactly. -/
theorem C7_progress_monotone (env : S3Env) (d : List Nat) (C : Nat) :
    (instant_upload_handler env d C).uploadedSize =
        ((instant_upload_handler env d C).stored.map
          (fun p => p.2.length)).sum ∧
    List.Chain' (fun a b : Nat => a ≤ b)
      (instant_upload_handler env d C).events ∧
    (∀ u, env.startResult = some u → env.downloadRaises = false →
      (∀ i, env.partSucceeds i = true) → C ≠ 0 →
      (instant_upload_handler env d C).uploadedSize = d.length) := by
  cases hu : env.startResult with
  | none =>
    rw [handler_start_fail env d C hu]
    refine ⟨rfl, by simp, ?_⟩
    intro u h' _ _ _
    simp at h'
  | some u =>
    cases hd : env.downloadRaises with
    | true =>
      rw [handler_download_fail env d C u hu hd]
      refine ⟨rfl, by simp, ?_⟩
      intro u' _ h' _ _
      simp at h'
    | false =>
      obtain ⟨hev, hst, hsz, -⟩ := handler_run env d C u hu hd
      have hsize := upload_chunks_size env (read_chunks C d) 0 initState
      refine ⟨?_, ?_, ?_⟩
      · rw [hsz, hst, hsize]
        simp [initState]
      · rw [hev]
        exact (upload_chunks_events env (read_chunks C d) 0 initState).1
      · intro u' _ _ hs hC
        have hsnd :=
          (upload_chunks_stored_success env hs (read_chunks C d) 0 initState).1
        rw [hsz, hsize]
        have hcomp : ((upload_chunks env 0 initState
            (read_chunks C d)).stored.map (fun p => p.2.length)).sum =
            (((upload_chunks env 0 initState
              (read_chunks C d)).stored.map Prod.snd).map List.length).sum := by
          rw [List.map_map]
          rfl
        rw [hcomp, hsnd, ← List.length_flatten, read_chunks_flatten C hC d]
        simp [initState]

/-- Claim C7 witness: the theorem applied to a complete three-byte
transfer against the all-success store. -/
theorem C7_witness :
    (instant_upload_handler envOk [0, 1, 2] 2).uploadedSize =
        ((instant_upload_handler envOk [0, 1, 2] 2).stored.map
          (fun p => p.2.length)).sum ∧
    (instant_upload_handler envOk [0, 1, 2] 2).uploadedSize =
        ([0, 1, 2] : List Nat).length :=
  ⟨(C7_progress_monotone envOk [0, 1, 2] 2).1,
    (C7_progress_monotone envOk [0, 1, 2] 2).2.2 "uid" rfl rfl
      (fun _ => rfl) (by decide)⟩

/-- Claim C8 (code bug): the render gate of `progress_hook` fires for two
distinct non-final progress events lying in the same one-second interval
(elapsed 0.1s and 0.2s, both with fractional part rounding to 0), so the
status surface is rendered more than once within one interval, contrary to
the claim and to the code's own comment that it updates every 1 second. -/
theorem C8_throttle_code_bug :
    shouldRender (1/10 : ℚ) 1 100 = true ∧
    shouldRender (2/10 : ℚ) 2 100 = true ∧
    (⌊(1 : ℚ)/10⌋ = ⌊(2 : ℚ)/10⌋) ∧
    (1 : Nat) ≠ 100 ∧ (2 : Nat) ≠ 100 := by
  refine ⟨?_, ?_, by norm_num, by decide, by decide⟩ <;>
    norm_num [shouldRender, pyRound, Int.fract]

/-- Claim C9: rendering a progress update for a zero-byte total hits a
division by zero in the progress-bar computation (modelled as `none`),
and the gate does reach the render for a zero-byte object since
`current == total` holds; for every positive total the computation is
well-defined. -/
theorem C9_zero_total_division :
    (∀ current, get_progress_bar current 0 = none) ∧
    (∀ current total, total ≠ 0 →
        (get_progress_bar current total).isSome = true) ∧
    shouldRender 0 0 0 = true := by
  refine ⟨fun _ => rfl, fun c t ht => ?_, by simp [shouldRender]⟩
  simp [get_progress_bar, ht]

/-- Claim C9 witness: the theorem applied at total 0 and at total 42. -/
theorem C9_witness :
    get_progress_bar 7 0 = none ∧ (get_progress_bar 7 42).isSome = true :=
  ⟨C9_zero_total_division.1 7, C9_zero_total_division.2.1 7 42 (by decide)⟩

/-- Claim C10: the uploader's bookkeeping invariant — parts numbered
exactly `1..len` with the next part number `len + 1` — holds initially and
is preserved by any run of the chunk loop, because the counter is
incremented only on success; and a chunk whose upload fails leaves the
state unchanged, so its part number is reused by the next chunk. -/
theorem C10_part_bookkeeping (env : S3Env) :
    partsInvariant initState ∧
    (∀ (chunks : List (List Nat)) (idx : Nat) (st : UploaderState),
        partsInvariant st →
        partsInvariant (upload_chunks env idx st chunks).state) ∧
    (∀ (idx : Nat) (st : UploaderState) (c : List Nat),
        env.partSucceeds idx = false →
        (upload_chunks env idx st [c]).state = st) := by
  refine ⟨⟨rfl, rfl⟩,
    fun chunks idx st h => upload_chunks_invariant env chunks idx st h, ?_⟩
  intro idx st c hf
  simp [upload_chunks, upload_part, hf]

/-- Claim C10 witness: the invariant evaluated after a concrete loop in
which the first chunk's upload fails. -/
theorem C10_witness :
    partsInvariant (upload_chunks envPartFail 0 initState [[0, 1], [2]]).state :=
  (C10_part_bookkeeping envPartFail).2.1 [[0, 1], [2]] 0 initState ⟨rfl, rfl⟩

end Wasabi
